import Mathlib

/- Verification of the cloud storage provider layer of this repository:
   the remote readable file (ranged GET with size trimming), the writable
   file with the manifest durability protocol (side file plus atomic
   rename on the first Sync), whole-object GetObject/PutObject with
   consistency checks, and the paginated ListObjects algorithm.  The
   definitions below are shallow embeddings of the code in
   cloud/cloud_storage_provider.cc and cloud/aws/aws_s3.cc. -/

namespace CloudProvider

/- Outcome taxonomy of the provider layer: the rocksdb Status values that
   the embedded code paths produce (OK, NotFound, IOError).  Diagnostic
   message payloads are irrelevant to the verified properties and are
   omitted. -/
inductive Status where
  | ok : Status
  | notFound : Status
  | ioError : Status
deriving DecidableEq

/-- Number of values of a 64-bit unsigned integer; uint64 sums in the
source wrap modulo this. -/
def W64 : ℕ := 2 ^ 64

/-- Result of a read call: the status, the bytes delivered to the caller,
and the inclusive byte range of the single remote GET that was issued
(none when no remote request was made at all). -/
structure CloudReadResult where
  status : Status
  data : List ℕ
  req : Option (ℕ × ℕ)
deriving DecidableEq

/-- Bytes an object store serves for an inclusive byte range
[first, last] of an object with the given content: the slice clamped to
the object's actual size. -/
def rangeBody (content : List ℕ) (first last : ℕ) : List ℕ :=
  (content.drop first).take (last + 1 - first)

/-- S3ReadableFile::DoCloudRead (aws_s3.cc lines 264-321), success path of
the remote GET.  Ranges are inclusive on both ends, so a zero-length
logical request (n = 0) is issued as a 1-byte range; its payload is then
dropped because the body is read only when n != 0.  The end of the range
is rendered as a uint64 and therefore wraps modulo W64. -/
def doCloudRead (content : List ℕ) (offset n : ℕ) : CloudReadResult :=
  let rangeLen := if n ≠ 0 then n else 1
  let lastByte := (offset + rangeLen - 1) % W64
  let body := rangeBody content offset lastByte
  { status := Status.ok
    data := if n ≠ 0 then body.take n else []
    req := some (offset, lastByte) }

/-- CloudStorageReadableFile::Read(offset, n, result, scratch)
(cloud_storage_provider.cc lines 51-85): past-the-end reads return
success with no data and issue no remote request; otherwise the length is
trimmed to the remaining bytes when offset + n (a uint64 sum, wrapping
modulo W64) exceeds the known file size, and the single ranged GET is
issued. -/
def readAt (content : List ℕ) (fileSize offset n : ℕ) : CloudReadResult :=
  if offset ≥ fileSize then { status := Status.ok, data := [], req := none }
  else
    let n2 := if (offset + n) % W64 > fileSize then fileSize - offset else n
    doCloudRead content offset n2

/-- State of a CloudStorageWritableFile (cloud_storage_provider.cc):
whether the local file handle is open (local_file_ != nullptr), the
stored status_, the is_manifest_ flag, whether tmp_file_ is nonempty
(writes currently go to the side file), and the local filesystem contents
at the live path fname_ and at the side path fname_ + ".tmp" (none when
that file is absent). -/
structure WriterState where
  localOpen : Bool
  statusStored : Status
  isManifest : Bool
  tmpName : Bool
  live : List ℕ
  tmp : Option (List ℕ)
deriving DecidableEq

/-- Constructor of CloudStorageWritableFile (lines 117-161) for a manifest
whose local file already exists with content A: the live manifest is left
untouched, tmp_file_ is set to the side path and a fresh (empty) side
file is opened for the writes. -/
def openManifestWriter (A : List ℕ) : WriterState :=
  { localOpen := true
    statusStored := Status.ok
    isManifest := true
    tmpName := true
    live := A
    tmp := some [] }

/-- A write through the open local handle: it appends to the side file
while tmp_file_ is in effect, and to the live path otherwise. -/
def appendW (b : List ℕ) (s : WriterState) : WriterState :=
  if s.tmpName then { s with tmp := some (s.tmp.getD [] ++ b) }
  else { s with live := s.live ++ b }

/-- CloudStorageWritableFile::Sync (lines 213-249).  The parameters are
the outcomes of the three fallible sub-steps: the local flush
(local_file_->Sync()), the rename of the side file over the live path,
and the whole-object copy of the manifest to the remote store.  On the
first Sync of a side-file writer, a successful flush is followed by the
rename (tmp_file_ is cleared whether or not the rename succeeded); for a
manifest, a successful flush/rename is followed by the remote copy, and
the returned status is the final value of stat. -/
def syncExec (s : WriterState) (flushSt renameSt cloudSt : Status) :
    WriterState × Status :=
  if s.localOpen = false then (s, s.statusStored)
  else
    if flushSt = Status.ok ∧ s.tmpName then
      let s2 :=
        if renameSt = Status.ok then
          { s with live := s.tmp.getD s.live, tmp := none, tmpName := false }
        else { s with tmpName := false }
      let st2 := renameSt
      (s2, if s.isManifest ∧ st2 = Status.ok then cloudSt else st2)
    else
      (s, if s.isManifest ∧ flushSt = Status.ok then cloudSt else flushSt)

/-- The writer states reached after each individual write of the given
chunks (the head is the starting state). -/
def runAppends (s : WriterState) : List (List ℕ) → List WriterState
  | [] => [s]
  | b :: bs => s :: runAppends (appendW b s) bs

/-- The writer state after all the given chunks have been written. -/
def afterAppends (s : WriterState) : List (List ℕ) → WriterState
  | [] => s
  | b :: bs => afterAppends (appendW b s) bs

/-- Every local-filesystem state observable during the lifecycle of a
manifest writer opened on an existing manifest of content A that writes
the chunks bs and then calls Sync once: the state after each write, and
the state after Sync.  A crash may happen at any of these points; the
flush sub-step of Sync does not change the file contents and the rename
is a single atomic step, so these states are exactly the observable
crash points before and after the rename. -/
def manifestScenario (A : List ℕ) (bs : List (List ℕ))
    (flushSt renameSt cloudSt : Status) : List WriterState :=
  runAppends (openManifestWriter A) bs ++
    [(syncExec (afterAppends (openManifestWriter A) bs)
        flushSt renameSt cloudSt).1]

/-- The externally visible operations a Close call performed: closing the
local file handle, pushing the file to the remote store, deleting the
local file. -/
structure CloseEffects where
  closedLocal : Bool
  pushed : Bool
  deletedLocal : Bool
deriving DecidableEq

/-- No operation performed. -/
def noEffects : CloseEffects :=
  { closedLocal := false, pushed := false, deletedLocal := false }

/-- CloudStorageWritableFile::Close (lines 169-210).  Parameters are the
outcomes of the local close, the remote push (CopyLocalFileToDest) and
the local delete, plus the keep_local_sst_files option.  An
already-closed writer returns the stored status_ and does nothing; a
failed local close leaves the handle open; a non-manifest file is pushed
to the remote store and (unless retention is configured) deleted locally,
with status_ updated by those steps; a manifest performs neither. -/
def closeExec (s : WriterState) (closeSt putSt deleteSt : Status)
    (keepLocal : Bool) : WriterState × Status × CloseEffects :=
  if s.localOpen = false then (s, s.statusStored, noEffects)
  else if closeSt ≠ Status.ok then
    (s, closeSt, { closedLocal := true, pushed := false, deletedLocal := false })
  else
    let s1 := { s with localOpen := false }
    if s.isManifest then
      (s1, Status.ok,
        { closedLocal := true, pushed := false, deletedLocal := false })
    else
      let s2 := { s1 with statusStored := putSt }
      if putSt ≠ Status.ok then
        (s2, putSt, { closedLocal := true, pushed := true, deletedLocal := false })
      else if keepLocal then
        (s2, Status.ok,
          { closedLocal := true, pushed := true, deletedLocal := false })
      else
        let s3 := { s2 with statusStored := deleteSt }
        (s3, deleteSt,
          { closedLocal := true, pushed := true, deletedLocal := true })

/-- The destructor of CloudStorageWritableFile (lines 163-167): it calls
Close only when the local file handle is still open. -/
def destructorExec (s : WriterState) (closeSt putSt deleteSt : Status)
    (keepLocal : Bool) : WriterState × CloseEffects :=
  if s.localOpen then
    let r := closeExec s closeSt putSt deleteSt keepLocal
    (r.1, r.2.2)
  else (s, noEffects)

/-- CloudStorageProvider::GetObject (cloud_storage_provider.cc lines
295-331).  Parameters: the outcome of DoGetObject into the staging path
local_destination + ".tmp" (ok carries the remote-reported size), the
outcome of GetFileSize on the staging file, and the outcome of the final
rename.  Result: the returned status, whether the staging file is still
present after the call, and whether the final destination file was
produced.  A failed download deletes the staging file; a size mismatch
deletes it and returns an I/O error; a failed size measurement returns
the failure with the staging file left in place; on a size match the
staging file is renamed to the destination and the rename status is
returned (a failed rename also leaves the staging file). -/
def getObject (dl : Except Status ℕ) (measured : Except Status ℕ)
    (renameSt : Status) : Status × Bool × Bool :=
  match dl with
  | Except.error e => (e, false, false)
  | Except.ok remoteSize =>
    match measured with
    | Except.error e => (e, true, false)
    | Except.ok localSize =>
      if localSize ≠ remoteSize then (Status.ioError, false, false)
      else if renameSt = Status.ok then (Status.ok, false, true)
      else (renameSt, true, false)

/-- CloudStorageProvider::PutObject (cloud_storage_provider.cc lines
333-353).  The first parameter is the outcome of GetFileSize on the local
file; the second is the status DoPutObject would return.  A failed size
measurement is returned before any remote request; a zero-size file is
rejected with an I/O error before any remote request; otherwise
DoPutObject runs (second component true) and its status is returned. -/
def putObject (measured : Except Status ℕ) (doPutSt : Status) :
    Status × Bool :=
  match measured with
  | Except.error e => (e, false)
  | Except.ok 0 => (Status.ioError, false)
  | Except.ok (_ + 1) => (doPutSt, true)

/-- A store key: a byte string in the flat bucket namespace. -/
abbrev Key := List ℕ

/-- Strict lexicographic order on keys, the order in which the store
returns keys and by which a listing marker filters them. -/
def keyLt : Key → Key → Bool
  | _, [] => false
  | [], _ :: _ => true
  | a :: as, b :: bs =>
    if a < b then true
    else if a = b then keyLt as bs
    else false

/-- Whether the queried normalized path is a prefix of the key
(the C++ test keystr.find(prefix) == 0). -/
def hasPre (p k : Key) : Bool := p.isPrefixOf k

/-- The keys of the store, in order, that are strictly greater than the
marker: what a paginated query starting at that marker enumerates. -/
def restAfter (L : List Key) (m : Key) : List Key :=
  L.filter (fun k => keyLt m k)

/-- Last element of a key list ([] for the empty list); the C++
objs.back() used as the fallback continuation marker. -/
def lastD : List Key → Key
  | [] => []
  | [k] => k
  | _ :: k :: ks => lastD (k :: ks)

/-- Outcome of one underlying paginated query. -/
inductive QOutcome where
  | success : QOutcome
  | errNotFound : QOutcome
  | errOther : QOutcome
deriving DecidableEq

/-- The per-page emission loop of S3StorageProvider::ListObjects
(aws_s3.cc lines 593-603): each returned key must start with the queried
normalized path, otherwise the call fails with a generic I/O error
without emitting that key; conforming keys are emitted with the leading
path stripped. -/
def processPage (p : Key) : List Key → List Key → Except Status (List Key)
  | [], acc => Except.ok acc
  | k :: ks, acc =>
    if hasPre p k then processPage p ks (acc ++ [k.drop p.length])
    else Except.error Status.ioError

/-- The pagination loop of S3StorageProvider::ListObjects (aws_s3.cc
lines 556-620).  The store is modelled as the flat namespace holding the
key list L: the query for page i with marker m returns, in order, the
keys greater than m, delivering szf i of them (MaxKeys is set to 50, so a
compliant store keeps szf i at most 50) and reporting the page truncated
exactly when keys remain beyond it; qo i is the outcome of the query for
page i; mk i tells whether the store supplies an explicit NextMarker on
page i, whose value (S3 semantics) is the last key of the page.  A
not-found query outcome returns NotFound, any other failure returns
IOError; on a truncated page the marker advances to the supplied
NextMarker, or to the last key of the page when none is supplied.
Recursion is on explicit fuel; none means the fuel ran out before the
loop terminated. -/
def listLoopAux (L : List Key) (p : Key) (szf : ℕ → ℕ) (mk : ℕ → Bool)
    (qo : ℕ → QOutcome) :
    ℕ → ℕ → Key → List Key → Option (Except Status (List Key))
  | 0, _, _, _ => none
  | fuel + 1, i, m, acc =>
    match qo i with
    | QOutcome.errNotFound => some (Except.error Status.notFound)
    | QOutcome.errOther => some (Except.error Status.ioError)
    | QOutcome.success =>
      let rest := restAfter L m
      let page := rest.take (szf i)
      match processPage p page acc with
      | Except.error e => some (Except.error e)
      | Except.ok acc2 =>
        if rest.length ≤ szf i then some (Except.ok acc2)
        else
          let nm := if mk i then lastD page else []
          let m2 := if nm = [] then lastD page else nm
          listLoopAux L p szf mk qo fuel (i + 1) m2 acc2

/-- S3StorageProvider::ListObjects on an already-normalized path p:
the loop starts at page 0 with the empty marker and an empty result. -/
def listObjects (L : List Key) (p : Key) (szf : ℕ → ℕ) (mk : ℕ → Bool)
    (qo : ℕ → QOutcome) (fuel : ℕ) : Option (Except Status (List Key)) :=
  listLoopAux L p szf mk qo fuel 0 [] []

/-- A successful remote GET of a nonzero inclusive range delivers the
requested slice of the object, clamped to the object's size, and reports
the range it was asked for. -/
theorem doCloudRead_spec (content : List ℕ) (offset n : ℕ) (hn : n ≠ 0)
    (hlast : offset + n - 1 < W64) :
    doCloudRead content offset n =
      { status := Status.ok
        data := (content.drop offset).take n
        req := some (offset, offset + n - 1) } := by
  have hmod : (offset + n - 1) % W64 = offset + n - 1 := Nat.mod_eq_of_lt hlast
  have harith : offset + n - 1 + 1 - offset = n := by omega
  simp only [doCloudRead, rangeBody, if_pos hn, hmod, harith, List.take_take,
    min_self]

/-- C6: Range read trimming: for a reader of known size S, a read at
offset >= S returns 0 bytes and success without issuing any remote
request; a read at offset < S requesting a length that reaches past S
returns exactly S - offset bytes, the requested length having been
trimmed to the remaining bytes before the single ranged GET (the
hypothesis offset + n < W64 states that the uint64 sum offset + n does
not wrap). -/
theorem read_range_trim (content : List ℕ) (S offset n : ℕ)
    (hS : content.length = S) (hW : S < W64) :
    (offset ≥ S → readAt content S offset n =
      { status := Status.ok, data := [], req := none }) ∧
    (offset < S → S < offset + n → offset + n < W64 →
      (readAt content S offset n).status = Status.ok ∧
      (readAt content S offset n).data.length = S - offset ∧
      (readAt content S offset n).req = some (offset, S - 1)) := by
  constructor
  · intro h
    unfold readAt
    rw [if_pos h]
  · intro h1 h2 h3
    have hcond : (offset + n) % W64 > S := by
      rw [Nat.mod_eq_of_lt h3]
      omega
    have hread : readAt content S offset n =
        doCloudRead content offset (S - offset) := by
      unfold readAt
      rw [if_neg (show ¬ offset ≥ S by omega)]
      show doCloudRead content offset
          (if (offset + n) % W64 > S then S - offset else n) = _
      rw [if_pos hcond]
    rw [hread, doCloudRead_spec content offset (S - offset) (by omega) (by omega)]
    refine ⟨rfl, ?_, ?_⟩
    · simp only [List.length_take, List.length_drop, hS]
      omega
    · have harith : offset + (S - offset) - 1 = S - 1 := by omega
      rw [harith]

/-- Witness for C6 at content [7, 8, 9], S = 3, offset = 1, n = 5. -/
theorem read_range_trim_witness :
    (1 < 3 ∧ 3 < 1 + 5 ∧ 1 + 5 < W64) ∧
    ((readAt [7, 8, 9] 3 1 5).status = Status.ok ∧
      (readAt [7, 8, 9] 3 1 5).data.length = 3 - 1 ∧
      (readAt [7, 8, 9] 3 1 5).req = some (1, 3 - 1)) :=
  ⟨⟨by norm_num, by norm_num, by norm_num [W64]⟩,
    (read_range_trim [7, 8, 9] 3 1 5 rfl (by norm_num [W64])).2
      (by norm_num) (by norm_num) (by norm_num [W64])⟩

/-- A remote read with logical length 0 is issued as the 1-byte inclusive
range [offset, offset] and delivers no bytes. -/
theorem doCloudRead_zero (content : List ℕ) (offset : ℕ)
    (hoff : offset < W64) :
    doCloudRead content offset 0 =
      { status := Status.ok, data := [], req := some (offset, offset) } := by
  unfold doCloudRead
  simp [Nat.mod_eq_of_lt hoff]

/-- C7: Zero-byte read request: a read of length 0 at an offset below the
known size issues a non-empty 1-byte remote range (the inclusive range
[offset, offset]), discards its payload, and returns 0 bytes with
success. -/
theorem zero_byte_read (content : List ℕ) (S offset : ℕ)
    (hW : S < W64) (h1 : offset < S) :
    readAt content S offset 0 =
      { status := Status.ok, data := [], req := some (offset, offset) } := by
  have hcond : ¬ (offset + 0) % W64 > S := by
    rw [Nat.add_zero, Nat.mod_eq_of_lt (by omega)]
    omega
  unfold readAt
  rw [if_neg (show ¬ offset ≥ S by omega)]
  show doCloudRead content offset
      (if (offset + 0) % W64 > S then S - offset else 0) = _
  rw [if_neg hcond]
  exact doCloudRead_zero content offset (by omega)

/-- Witness for C7 at content [7, 8, 9], S = 3, offset = 1. -/
theorem zero_byte_read_witness :
    (3 < W64 ∧ 1 < 3) ∧
    readAt [7, 8, 9] 3 1 0 =
      { status := Status.ok, data := [], req := some (1, 1) } :=
  ⟨⟨by norm_num [W64], by norm_num⟩,
    zero_byte_read [7, 8, 9] 3 1 (by norm_num [W64]) (by norm_num)⟩

/-- C8: Zero-size upload rejection: PutObject on a local file of measured
size 0 returns an I/O error without invoking the provider-specific
upload; a failure to measure the size is likewise returned before any
remote request; the upload path runs only for files of nonzero size. -/
theorem putObject_zero_rejected (m : Except Status ℕ) (d : Status) :
    putObject (Except.ok 0) d = (Status.ioError, false) ∧
    (∀ e, putObject (Except.error e) d = (e, false)) ∧
    ((putObject m d).2 = true → ∃ k, m = Except.ok (k + 1)) := by
  refine ⟨rfl, fun e => rfl, ?_⟩
  match m with
  | Except.error e => intro h; simp [putObject] at h
  | Except.ok 0 => intro h; simp [putObject] at h
  | Except.ok (k + 1) => intro _; exact ⟨k, rfl⟩

/-- Witness for C8 at a measured size of 3. -/
theorem putObject_zero_rejected_witness :
    (putObject (Except.ok 3) Status.ok).2 = true ∧
    (∃ k, (Except.ok 3 : Except Status ℕ) = Except.ok (k + 1)) :=
  ⟨rfl, (putObject_zero_rejected (Except.ok 3) Status.ok).2.2 rfl⟩

/-- C10: Close is idempotent on an already-closed writer: once the local
file handle has been released, any further Close call returns the stored
status and performs no local-file operation, no remote push, no deletion
and no state change, and the destructor likewise does nothing. -/
theorem close_idempotent (s : WriterState) (a b c : Status) (k : Bool)
    (h : s.localOpen = false) :
    closeExec s a b c k = (s, s.statusStored, noEffects) ∧
    destructorExec s a b c k = (s, noEffects) := by
  constructor
  · simp [closeExec, h]
  · simp [destructorExec, h]

/-- Witness for C10 at a concrete closed writer state. -/
theorem close_idempotent_witness :
    (WriterState.mk false Status.ok false false [] none).localOpen = false ∧
    closeExec (WriterState.mk false Status.ok false false [] none)
        Status.ok Status.ok Status.ok false =
      (WriterState.mk false Status.ok false false [] none, Status.ok, noEffects) ∧
    destructorExec (WriterState.mk false Status.ok false false [] none)
        Status.ok Status.ok Status.ok false =
      (WriterState.mk false Status.ok false false [] none, noEffects) :=
  ⟨rfl,
    (close_idempotent (WriterState.mk false Status.ok false false [] none)
      Status.ok Status.ok Status.ok false rfl).1,
    (close_idempotent (WriterState.mk false Status.ok false false [] none)
      Status.ok Status.ok Status.ok false rfl).2⟩

/-- C2 counterexample: on a manifest writer whose local flush and rename
both succeed, a failing remote upload makes Sync return that failure: the
remote-upload failure is propagated as the result of the Sync call, not
merely logged. -/
theorem sync_remote_failure_propagated_cex :
    (syncExec (openManifestWriter []) Status.ok Status.ok Status.ioError).2 =
      Status.ioError ∧ Status.ioError ≠ Status.ok := by
  constructor
  · rfl
  · decide

/-- C2 amended: for an open manifest writer, Sync returns success if and
only if the local flush succeeds, the first-sync rename (when a side file
is in effect) succeeds, and the whole-object re-upload of the manifest to
the remote store succeeds; a remote upload failure is logged and also
returned as the failure of the Sync call. -/
theorem sync_status_amended (s : WriterState) (f r c : Status)
    (hOpen : s.localOpen = true) (hMan : s.isManifest = true) :
    (syncExec s f r c).2 = Status.ok ↔
      f = Status.ok ∧ (s.tmpName = true → r = Status.ok) ∧ c = Status.ok := by
  by_cases hf : f = Status.ok <;> by_cases ht : s.tmpName = true <;>
    by_cases hr : r = Status.ok <;>
      simp [syncExec, hOpen, hMan, hf, ht, hr]

/-- Witness for the amended C2 at a concrete open manifest writer. -/
theorem sync_status_amended_witness :
    ((openManifestWriter [1]).localOpen = true ∧
      (openManifestWriter [1]).isManifest = true) ∧
    ((syncExec (openManifestWriter [1]) Status.ok Status.ok Status.ok).2 =
        Status.ok ↔
      Status.ok = Status.ok ∧
        ((openManifestWriter [1]).tmpName = true → Status.ok = Status.ok) ∧
        Status.ok = Status.ok) :=
  ⟨⟨rfl, rfl⟩,
    sync_status_amended (openManifestWriter [1]) Status.ok Status.ok Status.ok
      rfl rfl⟩

/-- C3 counterexample: after a successful download, a failure to measure
the size of the staging file makes GetObject return the failure with the
staging file still present: this failing exit does not delete the staging
artifact. -/
theorem getObject_measure_failure_cex :
    getObject (Except.ok 5) (Except.error Status.ioError) Status.ok =
      (Status.ioError, true, false) ∧ Status.ioError ≠ Status.ok := by
  constructor
  · rfl
  · decide

/-- C3 amended: GetObject downloads to the staging path and, on a
download failure or on a size mismatch, returns a failure with the
staging file deleted; on a failure to measure the local size it returns
the failure but leaves the staging file in place; only when the two sizes
match exactly is the staging file renamed to the destination, success
being returned exactly when that rename succeeds (a failed rename also
leaves the staging file). -/
theorem getObject_staging_amended (e : Status) (r m : ℕ) (rn : Status)
    (meas : Except Status ℕ) (hmr : m ≠ r) :
    getObject (Except.error e) meas rn = (e, false, false) ∧
    getObject (Except.ok r) (Except.ok m) rn =
      (Status.ioError, false, false) ∧
    getObject (Except.ok r) (Except.error e) rn = (e, true, false) ∧
    getObject (Except.ok r) (Except.ok r) rn =
      (if rn = Status.ok then (Status.ok, false, true)
       else (rn, true, false)) := by
  refine ⟨rfl, ?_, rfl, ?_⟩
  · simp [getObject, hmr]
  · by_cases h : rn = Status.ok <;> simp [getObject, h]

/-- Witness for the amended C3 at sizes 4 and 5. -/
theorem getObject_staging_amended_witness :
    (4 ≠ 5) ∧
    getObject (Except.ok 5) (Except.ok 4) Status.ok =
      (Status.ioError, false, false) :=
  ⟨by norm_num,
    (getObject_staging_amended Status.ioError 5 4 Status.ok
      (Except.ok 0) (by norm_num)).2.1⟩

/-- A write on a side-file writer only grows the side file. -/
theorem appendW_side {s : WriterState} (h : s.tmpName = true) (b : List ℕ) :
    appendW b s = { s with tmp := some (s.tmp.getD [] ++ b) } := by
  simp [appendW, h]

/-- Every state reached while writing through a side-file writer keeps
the live path unchanged and the side file in effect. -/
theorem runAppends_live_eq :
    ∀ (bs : List (List ℕ)) (s : WriterState), s.tmpName = true →
      ∀ x ∈ runAppends s bs, x.live = s.live ∧ x.tmpName = true := by
  intro bs
  induction bs with
  | nil =>
    intro s h x hx
    simp [runAppends] at hx
    subst hx
    exact ⟨rfl, h⟩
  | cons b bs ih =>
    intro s h x hx
    simp only [runAppends, List.mem_cons] at hx
    rcases hx with rfl | hx
    · exact ⟨rfl, h⟩
    · have h2 := ih (appendW b s) (by rw [appendW_side h]; exact h) x hx
      rw [appendW_side h] at h2
      exact h2

/-- After writing the chunks bs through a side-file writer, the side file
holds the previous side content followed by the concatenation of bs. -/
theorem afterAppends_side :
    ∀ (bs : List (List ℕ)) (s : WriterState) (t : List ℕ),
      s.tmpName = true → s.tmp = some t →
      afterAppends s bs = { s with tmp := some (t ++ bs.flatten) } := by
  intro bs
  induction bs with
  | nil =>
    intro s t h ht
    cases s
    simp_all [afterAppends]
  | cons b bs ih =>
    intro s t h ht
    rw [afterAppends, appendW_side h, ht]
    rw [ih { s with tmp := some ((some t).getD [] ++ b) } (t ++ b)
      (by rw [h]) (by simp)]
    cases s
    simp_all [List.append_assoc]

/-- C1: Manifest atomic swap: a writer opened on a manifest that already
exists locally with content A sends every write of the new content to the
side file; the live path is replaced only by the single atomic rename
performed on the first successful Sync, so in every state of the writer's
lifecycle that a crash could expose (after each write, after the local
flush, after the rename, and after a failed flush or rename) the live
manifest path holds either exactly A or exactly the full new content
bs.flatten, never a partial mixture. -/
theorem manifest_atomic_swap (A : List ℕ) (bs : List (List ℕ))
    (f r c : Status) (s : WriterState)
    (hs : s ∈ manifestScenario A bs f r c) :
    s.live = A ∨ s.live = bs.flatten := by
  unfold manifestScenario at hs
  rw [List.mem_append] at hs
  rcases hs with h | h
  · left
    exact (runAppends_live_eq bs (openManifestWriter A) rfl s h).1
  · rw [List.mem_singleton] at h
    subst h
    rw [afterAppends_side bs (openManifestWriter A) [] rfl rfl]
    by_cases hf : f = Status.ok
    · by_cases hr : r = Status.ok
      · right
        simp [syncExec, openManifestWriter, hf, hr]
      · left
        simp [syncExec, openManifestWriter, hf, hr]
    · left
      simp [syncExec, openManifestWriter, hf]

/-- Witness for C1: the initial state of a concrete scenario. -/
theorem manifest_atomic_swap_witness :
    openManifestWriter [1] ∈
      manifestScenario [1] [[2]] Status.ok Status.ok Status.ok ∧
    ((openManifestWriter [1]).live = [1] ∨
      (openManifestWriter [1]).live = [[2]].flatten) :=
  ⟨by decide,
    manifest_atomic_swap [1] [[2]] Status.ok Status.ok Status.ok
      (openManifestWriter [1]) (by decide)⟩

theorem keyLt_irrefl (k : Key) : keyLt k k = false := by
  induction k with
  | nil => rfl
  | cons a as ih => simp [keyLt, ih]

theorem keyLt_trans : ∀ {a b c : Key}, keyLt a b = true → keyLt b c = true →
    keyLt a c = true := by
  intro a
  induction a with
  | nil =>
    intro b c h1 h2
    cases b with
    | nil => simp [keyLt] at h1
    | cons y ys =>
      cases c with
      | nil => simp [keyLt] at h2
      | cons z zs => simp [keyLt]
  | cons x xs ih =>
    intro b c h1 h2
    cases b with
    | nil => simp [keyLt] at h1
    | cons y ys =>
      cases c with
      | nil => simp [keyLt] at h2
      | cons z zs =>
        simp only [keyLt] at h1 h2 ⊢
        by_cases hxy : x < y
        · by_cases hyz : y < z
          · simp [show x < z from lt_trans hxy hyz]
          · by_cases hyeq : y = z
            · subst hyeq
              simp [hxy]
            · simp [hyz, hyeq] at h2
        · by_cases hxeq : x = y
          · subst hxeq
            simp only [lt_irrefl, if_false, if_pos rfl] at h1
            by_cases hxz : x < z
            · simp [hxz]
            · by_cases hxzeq : x = z
              · subst hxzeq
                simp only [lt_irrefl, if_false, if_pos rfl] at h2 ⊢
                exact ih h1 h2
              · simp [hxz, hxzeq] at h2
          · simp [hxy, hxeq] at h1

theorem keyLt_asymm : ∀ {a b : Key}, keyLt a b = true → keyLt b a = false := by
  intro a
  induction a with
  | nil =>
    intro b h
    cases b with
    | nil => simp [keyLt] at h
    | cons y ys => rfl
  | cons x xs ih =>
    intro b h
    cases b with
    | nil => simp [keyLt] at h
    | cons y ys =>
      simp only [keyLt] at h ⊢
      by_cases hxy : x < y
      · simp [show ¬ y < x by omega, show ¬ y = x by omega]
      · by_cases hxeq : x = y
        · subst hxeq
          simp only [lt_irrefl, if_false, if_pos rfl] at h ⊢
          exact ih h
        · simp [hxy, hxeq] at h

theorem keyLt_nil {k : Key} (h : k ≠ []) : keyLt [] k = true := by
  cases k with
  | nil => exact absurd rfl h
  | cons a as => rfl

theorem hasPre_ne_nil {p k : Key} (hp : p ≠ []) (h : hasPre p k = true) :
    k ≠ [] := by
  cases p with
  | nil => exact absurd rfl hp
  | cons a as =>
    cases k with
    | nil => simp [hasPre, List.isPrefixOf] at h
    | cons b bs => simp

theorem lastD_mem : ∀ {l : List Key}, l ≠ [] → lastD l ∈ l := by
  intro l
  induction l with
  | nil => intro h; exact absurd rfl h
  | cons a as ih =>
    intro _
    cases as with
    | nil => simp [lastD]
    | cons b bs =>
      have h2 := ih (by simp)
      exact List.mem_cons_of_mem a h2

/-- In a strictly sorted key list every element is the last one or is
below it. -/
theorem sorted_lastD_ge :
    ∀ {l : List Key}, l.Pairwise (fun a b => keyLt a b = true) →
      ∀ k ∈ l, k = lastD l ∨ keyLt k (lastD l) = true := by
  intro l
  induction l with
  | nil => intro _ k hk; simp at hk
  | cons a as ih =>
    intro hp k hk
    rcases List.pairwise_cons.mp hp with ⟨ha, has⟩
    cases as with
    | nil =>
      rw [List.mem_singleton] at hk
      subst hk
      left
      rfl
    | cons b bs =>
      rcases List.mem_cons.mp hk with rfl | hk2
      · right
        exact ha _ (lastD_mem (by simp))
      · exact ih has k hk2

theorem restAfter_sublist (L : List Key) (m : Key) :
    (restAfter L m).Sublist L :=
  List.filter_sublist L

/-- A query whose marker lies beyond the previous marker enumerates a
sub-listing of the previous query. -/
theorem restAfter_filter (L : List Key) (m m2 : Key)
    (hmm2 : keyLt m m2 = true) :
    restAfter L m2 = (restAfter L m).filter (fun k => keyLt m2 k) := by
  unfold restAfter
  rw [List.filter_filter]
  apply List.filter_congr
  intro k _
  by_cases h : keyLt m2 k = true
  · simp [h, keyLt_trans hmm2 h]
  · simp only [Bool.not_eq_true] at h
    simp [h]

/-- Filtering a strictly sorted list by being above the last element of
its first sz elements keeps exactly the elements after them. -/
theorem filter_gt_last {R : List Key}
    (hRp : R.Pairwise (fun a b => keyLt a b = true)) {sz : ℕ}
    (h1 : 1 ≤ sz) (h2 : sz < R.length) (m2 : Key)
    (hm2 : m2 = lastD (R.take sz)) :
    R.filter (fun k => keyLt m2 k) = R.drop sz := by
  have htne : R.take sz ≠ [] := by
    intro hnil
    have hlen : (R.take sz).length = sz := by
      rw [List.length_take]
      omega
    rw [hnil] at hlen
    simp at hlen
    omega
  have hm2take : m2 ∈ R.take sz := by
    rw [hm2]
    exact lastD_mem htne
  conv_lhs => rw [← List.take_append_drop sz R]
  rw [List.filter_append]
  have hA : (R.take sz).filter (fun k => keyLt m2 k) = [] := by
    rw [List.filter_eq_nil_iff]
    intro k hk
    have hps : (R.take sz).Pairwise (fun a b => keyLt a b = true) :=
      hRp.sublist (List.take_sublist sz R)
    rcases sorted_lastD_ge hps k hk with heq | hlt
    · rw [heq, ← hm2]
      simp [keyLt_irrefl]
    · rw [← hm2] at hlt
      simp [keyLt_asymm hlt]
  have hB : (R.drop sz).filter (fun k => keyLt m2 k) = R.drop sz := by
    rw [List.filter_eq_self]
    intro k hk
    have hsplit := List.pairwise_append.mp
      (show (R.take sz ++ R.drop sz).Pairwise (fun a b => keyLt a b = true) by
        rw [List.take_append_drop]
        exact hRp)
    exact hsplit.2.2 m2 hm2take k hk
  rw [hA, hB, List.nil_append]

/-- Advancing the marker to the last key of a page of a strictly sorted
listing makes the next query enumerate exactly the keys after that
page. -/
theorem restAfter_advance {L : List Key}
    (hL : L.Pairwise (fun a b => keyLt a b = true)) {m : Key} {sz : ℕ}
    (h1 : 1 ≤ sz) (h2 : sz < (restAfter L m).length) :
    restAfter L (lastD ((restAfter L m).take sz)) =
      (restAfter L m).drop sz := by
  have hRp : (restAfter L m).Pairwise (fun a b => keyLt a b = true) :=
    hL.sublist (restAfter_sublist L m)
  have htne : (restAfter L m).take sz ≠ [] := by
    intro hnil
    have hlen : ((restAfter L m).take sz).length = sz := by
      rw [List.length_take]
      omega
    rw [hnil] at hlen
    simp at hlen
    omega
  have hm2R : lastD ((restAfter L m).take sz) ∈ restAfter L m :=
    List.mem_of_mem_take (lastD_mem htne)
  have hm2F : lastD ((restAfter L m).take sz) ∈
      List.filter (fun k => keyLt m k) L := hm2R
  have hmm2 : keyLt m (lastD ((restAfter L m).take sz)) = true := by
    simpa using List.of_mem_filter hm2F
  rw [restAfter_filter L m _ hmm2]
  exact filter_gt_last hRp h1 h2 _ rfl

/-- The per-page loop emits, in order, the suffix of every conforming key,
and fails with a generic I/O error when some key of the page does not
start with the queried path. -/
theorem processPage_spec (p : Key) :
    ∀ (page acc : List Key),
      processPage p page acc =
        if page.all (fun k => hasPre p k) then
          Except.ok (acc ++ page.map (fun k => k.drop p.length))
        else Except.error Status.ioError := by
  intro page
  induction page with
  | nil => intro acc; simp [processPage]
  | cons k ks ih =>
    intro acc
    by_cases h : hasPre p k = true
    · rw [processPage, if_pos h, ih]
      cases h2 : ks.all (fun k => hasPre p k) with
      | true => simp [h, h2]
      | false => simp [h, h2]
    · rw [processPage, if_neg h]
      simp only [Bool.not_eq_true] at h
      simp [h]

/-- Main loop invariant of ListObjects over a compliant store: with
enough fuel, starting from any marker, the loop returns the suffixes of
all remaining keys when they all carry the queried path, and a generic
I/O error when one of them does not. -/
theorem listLoopAux_spec {L : List Key} {p : Key} {szf : ℕ → ℕ}
    {mk : ℕ → Bool} {qo : ℕ → QOutcome}
    (hL : L.Pairwise (fun a b => keyLt a b = true))
    (hsz : ∀ i, 1 ≤ szf i) (hqo : ∀ i, qo i = QOutcome.success) :
    ∀ (fuel : ℕ) (m : Key) (i : ℕ) (acc : List Key),
      (restAfter L m).length < fuel →
      listLoopAux L p szf mk qo fuel i m acc =
        some (if (restAfter L m).all (fun k => hasPre p k) then
            Except.ok (acc ++ (restAfter L m).map (fun k => k.drop p.length))
          else Except.error Status.ioError) := by
  intro fuel
  induction fuel with
  | zero =>
    intro m i acc h
    omega
  | succ f ih =>
    intro m i acc hlen
    rw [listLoopAux, hqo i]
    simp only
    rw [processPage_spec]
    by_cases hterm : (restAfter L m).length ≤ szf i
    · rw [List.take_of_length_le hterm]
      cases hall : (restAfter L m).all (fun k => hasPre p k) with
      | true => simp [hall, hterm]
      | false => simp [hall, hterm]
    · have hterm2 : szf i < (restAfter L m).length := by omega
      have hmarker :
          (if (if mk i then lastD ((restAfter L m).take (szf i)) else []) =
              ([] : Key)
            then lastD ((restAfter L m).take (szf i))
            else if mk i then lastD ((restAfter L m).take (szf i)) else []) =
          lastD ((restAfter L m).take (szf i)) := by
        cases mk i <;> simp
      have hadv := restAfter_advance hL (hsz i) hterm2
      cases hall : ((restAfter L m).take (szf i)).all (fun k => hasPre p k) with
      | false =>
        simp only [hall, Bool.false_eq_true, if_false, hterm, if_neg]
        have hallR : (restAfter L m).all (fun k => hasPre p k) = false := by
          conv_lhs => rw [← List.take_append_drop (szf i) (restAfter L m)]
          rw [List.all_append, hall, Bool.false_and]
        simp [hallR, hterm]
      | true =>
        simp only [hall, if_true, if_neg hterm, hmarker]
        have hlen2 : (restAfter L (lastD ((restAfter L m).take (szf i)))).length < f := by
          rw [hadv, List.length_drop]
          have := hsz i
          omega
        rw [ih _ (i + 1) _ hlen2, hadv]
        have hsplitAll : (restAfter L m).all (fun k => hasPre p k) =
            ((restAfter L m).drop (szf i)).all (fun k => hasPre p k) := by
          conv_lhs => rw [← List.take_append_drop (szf i) (restAfter L m)]
          rw [List.all_append, hall, Bool.true_and]
        rw [hsplitAll]
        cases hall2 : ((restAfter L m).drop (szf i)).all (fun k => hasPre p k) with
        | false => simp [hall2]
        | true =>
          simp only [hall2, if_true]
          congr 2
          conv_rhs => rw [← List.take_append_drop (szf i) (restAfter L m)]
          rw [List.map_append, ← List.append_assoc]

/-- C5: Listing completeness: for a store whose keys under the normalized
path are strictly sorted, all carry that path, and are served in pages of
at most 50 (each page nonempty), ListObjects succeeds and returns exactly
those keys with the leading path stripped, each exactly once, regardless
of where the page boundaries fall (szf) and regardless of whether a
truncated page carries an explicit NextMarker (mk), in which case the
marker advances to the last key of the current page. -/
theorem listObjects_complete {L : List Key} {p : Key} {szf : ℕ → ℕ}
    {mk : ℕ → Bool} {qo : ℕ → QOutcome}
    (hL : L.Pairwise (fun a b => keyLt a b = true))
    (hp : ∀ k ∈ L, hasPre p k = true) (hpn : p ≠ [])
    (hsz : ∀ i, 1 ≤ szf i ∧ szf i ≤ 50)
    (hqo : ∀ i, qo i = QOutcome.success) :
    listObjects L p szf mk qo (L.length + 1) =
      some (Except.ok (L.map (fun k => k.drop p.length))) := by
  have hrest : restAfter L [] = L := by
    unfold restAfter
    rw [List.filter_eq_self]
    intro k hk
    exact keyLt_nil (hasPre_ne_nil hpn (hp k hk))
  unfold listObjects
  rw [listLoopAux_spec hL (fun i => (hsz i).1) hqo (L.length + 1) [] 0 []
    (by rw [hrest]; omega), hrest]
  have hall : L.all (fun k => hasPre p k) = true := by
    rw [List.all_eq_true]
    intro k hk
    exact hp k hk
  simp [hall]

/-- Witness for C5 at three keys under path [1] served in pages of 2. -/
theorem listObjects_complete_witness :
    List.Pairwise (fun a b => keyLt a b = true) [[1, 1], [1, 2], [1, 3]] ∧
    (∀ k ∈ [[1, 1], [1, 2], [1, 3]], hasPre [1] k = true) ∧
    ([1] : Key) ≠ [] ∧
    (∀ i : ℕ, 1 ≤ (2 : ℕ) ∧ (2 : ℕ) ≤ 50) ∧
    listObjects [[1, 1], [1, 2], [1, 3]] [1] (fun _ => 2) (fun _ => false)
        (fun _ => QOutcome.success) 4 =
      some (Except.ok [[1], [2], [3]]) :=
  ⟨by decide, by decide, by decide, fun _ => by norm_num,
    listObjects_complete (by decide) (by decide) (by decide)
      (fun _ => show (1 : ℕ) ≤ 2 ∧ (2 : ℕ) ≤ 50 by norm_num)
      (fun _ => rfl)⟩

/-- C9: Prefix invariant: when any page of the paginated listing under
the normalized path p contains a key that does not start with p,
ListObjects returns a generic I/O failure; the non-conforming key is
never emitted (processPage errors before appending it) and the failure is
never silently dropped. -/
theorem listObjects_bad_key {L : List Key} {p : Key} {szf : ℕ → ℕ}
    {mk : ℕ → Bool} {qo : ℕ → QOutcome}
    (hL : L.Pairwise (fun a b => keyLt a b = true))
    (hne : ∀ k ∈ L, k ≠ [])
    (hsz : ∀ i, 1 ≤ szf i ∧ szf i ≤ 50)
    (hqo : ∀ i, qo i = QOutcome.success)
    (hbad : ∃ k ∈ L, hasPre p k = false) :
    listObjects L p szf mk qo (L.length + 1) =
      some (Except.error Status.ioError) := by
  have hrest : restAfter L [] = L := by
    unfold restAfter
    rw [List.filter_eq_self]
    intro k hk
    exact keyLt_nil (hne k hk)
  unfold listObjects
  rw [listLoopAux_spec hL (fun i => (hsz i).1) hqo (L.length + 1) [] 0 []
    (by rw [hrest]; omega), hrest]
  obtain ⟨k, hk, hkp⟩ := hbad
  have hall : L.all (fun k => hasPre p k) = false := by
    cases h : L.all (fun k => hasPre p k) with
    | true =>
      have h2 := List.all_eq_true.mp h k hk
      rw [hkp] at h2
      simp at h2
    | false => rfl
  simp [hall]

/-- Witness for C9 at keys [[1,1], [1,3], [9]] under path [1]: the key
[9] on the second page does not carry the path. -/
theorem listObjects_bad_key_witness :
    List.Pairwise (fun a b => keyLt a b = true) [[1, 1], [1, 3], [9]] ∧
    (∀ k ∈ [[1, 1], [1, 3], [9]], k ≠ ([] : Key)) ∧
    (∃ k ∈ [[1, 1], [1, 3], [9]], hasPre [1] k = false) ∧
    listObjects [[1, 1], [1, 3], [9]] [1] (fun _ => 2) (fun _ => false)
        (fun _ => QOutcome.success) 4 =
      some (Except.error Status.ioError) :=
  ⟨by decide, by decide, by decide,
    listObjects_bad_key (by decide) (by decide)
      (fun _ => show (1 : ℕ) ≤ 2 ∧ (2 : ℕ) ≤ 50 by norm_num)
      (fun _ => rfl) (by decide)⟩

/-- C4 counterexample: a two-key listing served one key per page where
the query for the second page reports not-found: ListObjects returns
NotFound ("directory does not exist"), not the generic I/O failure the
claim requires for failures after the first page. -/
theorem listObjects_later_notFound_cex :
    listObjects [[1, 1], [1, 2]] [1] (fun _ => 1) (fun _ => false)
        (fun i => if i = 0 then QOutcome.success else QOutcome.errNotFound)
        3 =
      some (Except.error Status.notFound) ∧
    Status.notFound ≠ Status.ioError := by
  constructor
  · rfl
  · decide

/-- C4 amended: a not-found outcome from the underlying paginated query
is propagated as a not-found ("directory does not exist") failure
regardless of the page on which it occurs - the code makes no first-page
distinction - and any other query failure is propagated as a generic I/O
failure, likewise on every page. -/
theorem listLoop_error_any_page (L : List Key) (p : Key) (szf : ℕ → ℕ)
    (mk : ℕ → Bool) (qo : ℕ → QOutcome) (fuel i j : ℕ) (m m2 : Key)
    (acc acc2 : List Key)
    (hi : qo i = QOutcome.errNotFound) (hj : qo j = QOutcome.errOther) :
    listLoopAux L p szf mk qo (fuel + 1) i m acc =
      some (Except.error Status.notFound) ∧
    listLoopAux L p szf mk qo (fuel + 1) j m2 acc2 =
      some (Except.error Status.ioError) := by
  constructor
  · simp only [listLoopAux, hi]
  · simp only [listLoopAux, hj]

/-- Witness for the amended C4: the query outcome schedule fails with
not-found on page 3 and with another error on page 0. -/
theorem listLoop_error_any_page_witness :
    ((fun n => if n = 3 then QOutcome.errNotFound else QOutcome.errOther) 3 =
        QOutcome.errNotFound) ∧
    ((fun n => if n = 3 then QOutcome.errNotFound else QOutcome.errOther) 0 =
        QOutcome.errOther) ∧
    listLoopAux [] [] (fun _ => 1) (fun _ => false)
        (fun n => if n = 3 then QOutcome.errNotFound else QOutcome.errOther)
        (0 + 1) 3 [] [] = some (Except.error Status.notFound) ∧
    listLoopAux [] [] (fun _ => 1) (fun _ => false)
        (fun n => if n = 3 then QOutcome.errNotFound else QOutcome.errOther)
        (0 + 1) 0 [] [] = some (Except.error Status.ioError) :=
  ⟨rfl, rfl,
    listLoop_error_any_page [] [] (fun _ => 1) (fun _ => false)
      (fun n => if n = 3 then QOutcome.errNotFound else QOutcome.errOther)
      0 3 0 [] [] [] [] rfl rfl⟩

end CloudProvider
